import Mathlib

/-!
Shallow embedding of the `if-change-then-change` checker
(source files: `src/diagnostic.rs`, `src/if_change_then_change2.rs`, `src/main.rs`).

Lines of a file are modelled as `List Char`; paths and messages as `String`.
Rust `usize` values (line numbers) are modelled as `Nat`; the only subtraction
in the source is `lineno - 1` on a 1-indexed diff line number, which is `≥ 1`
in every diff the external `unidiff` collaborator produces, so truncated `Nat`
subtraction agrees with the source there.
`HashMap`s are modelled as association lists in first-insertion order (the
source's iteration order is arbitrary; the embedding fixes one).
-/

/-- `char::is_ascii_punctuation` from Rust: `!..=/`, `:..=@`, `[..=`` ` ``, `{..=~`. -/
def isAsciiPunct (c : Char) : Bool :=
  (0x21 ≤ c.toNat && c.toNat ≤ 0x2F) ||
  (0x3A ≤ c.toNat && c.toNat ≤ 0x40) ||
  (0x5B ≤ c.toNat && c.toNat ≤ 0x60) ||
  (0x7B ≤ c.toNat && c.toNat ≤ 0x7E)

/-- `char::is_ascii_whitespace` from Rust: space, tab, newline, form feed, carriage return. -/
def isAsciiWs (c : Char) : Bool :=
  c.toNat = 0x20 || c.toNat = 0x09 || c.toNat = 0x0A || c.toNat = 0x0C || c.toNat = 0x0D

/-- Rust `char::is_whitespace` (Unicode `White_Space`), used by `str::trim_start`. -/
def isUnicodeWs (c : Char) : Bool :=
  [0x09, 0x0A, 0x0B, 0x0C, 0x0D, 0x20, 0x85, 0xA0, 0x1680,
   0x2000, 0x2001, 0x2002, 0x2003, 0x2004, 0x2005, 0x2006, 0x2007, 0x2008, 0x2009, 0x200A,
   0x2028, 0x2029, 0x202F, 0x205F, 0x3000].contains c.toNat

/-- The combined predicate `ch.is_ascii_punctuation() || ch.is_ascii_whitespace()`
used throughout the parser for trimming comment punctuation. -/
def isPunctOrWs (c : Char) : Bool :=
  isAsciiPunct c || isAsciiWs c

/-- Index of the first occurrence of `pat` in `s`, as `str::find` / the split
point of `str::split_once`. -/
def findSub (pat : List Char) : List Char → Option Nat
  | [] => if pat.isEmpty then some 0 else none
  | c :: rest =>
    if pat.isPrefixOf (c :: rest) then some 0
    else (findSub pat rest).map (· + 1)

/-- Rust `str::split_once`: the parts strictly before and strictly after the
first occurrence of `pat`. -/
def splitOnce (pat s : List Char) : Option (List Char × List Char) :=
  match findSub pat s with
  | none => none
  | some i => some (s.take i, s.drop (i + pat.length))

/-- Rust `str::trim_end_matches` with a character predicate. -/
def trimEndMatches (p : Char → Bool) (s : List Char) : List Char :=
  (s.reverse.dropWhile p).reverse

/-- Rust `str::trim_start` (trims Unicode whitespace). -/
def trimStartWs (s : List Char) : List Char :=
  s.dropWhile isUnicodeWs

/-- Rust `str::trim_matches` with a character predicate (both ends). -/
def trimMatches (p : Char → Bool) (s : List Char) : List Char :=
  ((s.dropWhile p).reverse.dropWhile p).reverse

/-- Split a character list at every occurrence of `sep` (keeping empty segments). -/
def splitSep (sep : Char) : List Char → List (List Char)
  | [] => [[]]
  | c :: rest =>
    let segs := splitSep sep rest
    if c = sep then [] :: segs
    else
      match segs with
      | [] => [[c]]
      | seg :: more => (c :: seg) :: more

/-- Drop a single trailing carriage return, as Rust `str::lines` does per line. -/
def stripCR (s : List Char) : List Char :=
  match s.getLast? with
  | some c => if c = '\r' then s.dropLast else s
  | none => s

/-- Rust `str::lines`: split at `\n`, the final line ending being optional,
and each line stripped of one trailing `\r`. -/
def rustLines (s : List Char) : List (List Char) :=
  match s with
  | [] => []
  | _ =>
    let segs := splitSep '\n' s
    let segs := if s.getLast? = some '\n' then segs.dropLast else segs
    segs.map stripCR

/-- `BlockKey` from `if_change_then_change2.rs`: identifies the file a block
belongs to. -/
structure BlockKey where
  path : String
deriving DecidableEq, Repr

/-- `BlockNode` from `if_change_then_change2.rs`: one parsed
if-change-then-change region. -/
structure BlockNode where
  key : BlockKey
  then_change : List (Nat × BlockKey)
  if_change_lineno : Nat
  then_change_lineno : Nat
  end_change_lineno : Nat
deriving DecidableEq, Repr

/-- `BlockNode::content_range`: the 0-indexed inclusive-exclusive range
`if_change_lineno .. end_change_lineno + 1`, modelled as a `(start, stop)` pair. -/
def BlockNode.content_range (b : BlockNode) : Nat × Nat :=
  (b.if_change_lineno, b.end_change_lineno + 1)

/-- Membership of a 0-indexed line in a `(start, stop)` inclusive-exclusive range
(`Range::contains`). -/
def rangeContains (r : Nat × Nat) (n : Nat) : Bool :=
  r.1 ≤ n && n < r.2

/-- `Diagnostic` from `diagnostic.rs`. The line range is 0-indexed,
inclusive-exclusive. -/
structure Diagnostic where
  path : String
  start_line : Option Nat
  end_line : Option Nat
  message : String
deriving DecidableEq, Repr

/-- `DiagnosticPosition::fmt` from `diagnostic.rs`: `path`, `path:N`, or
`path:S-E` depending on which of the two optional bounds are present. -/
def positionFmt (path : String) (start_line end_line : Option Nat) : String :=
  match start_line with
  | some s =>
    match end_line with
    | some e => path ++ ":" ++ toString (s + 1) ++ "-" ++ toString e
    | none => path ++ ":" ++ toString (s + 1)
  | none => path

/-- `Diagnostic::fmt`: `<position> - <message>`. -/
def Diagnostic.fmtStr (d : Diagnostic) : String :=
  positionFmt d.path d.start_line d.end_line ++ " - " ++ d.message

/-- `LineType` from `if_change_then_change2.rs`. -/
inductive LineKindParsed where
  | sourceCode
  | ifChange
  | thenChangeInline (target : List Char)
  | thenChangeBlockStart
  | endChange
deriving DecidableEq, Repr

/-- `Parser::is_comment_prefix`: every character is ASCII punctuation or
ASCII whitespace. -/
def isCommentLead (s : List Char) : Bool :=
  s.all isPunctOrWs

/-- The `end-change` test of `Parser::line_type` (the last of the three keyword
checks, falling through to `SourceCode`). -/
def lineTypeEnd (line : List Char) : LineKindParsed :=
  match splitOnce "end-change".data line with
  | some (pre, _) =>
    if isCommentLead pre then LineKindParsed.endChange
    else LineKindParsed.sourceCode
  | none => LineKindParsed.sourceCode

/-- The `then-change` test of `Parser::line_type`, falling through to the
`end-change` test. -/
def lineTypeThen (line : List Char) : LineKindParsed :=
  match splitOnce "then-change".data line with
  | some (pre, post) =>
    if isCommentLead pre then
      let post := trimEndMatches isPunctOrWs post
      if post.isEmpty then LineKindParsed.thenChangeBlockStart
      else if (match post.head? with
               | none => true
               | some c => isAsciiWs c) then
        LineKindParsed.thenChangeInline (trimStartWs post)
      else lineTypeEnd line
    else lineTypeEnd line
  | none => lineTypeEnd line

/-- `Parser::line_type`: classify one line, independently of parser state.
The three keywords are tried in the order if-change, then-change, end-change. -/
def lineType (line : List Char) : LineKindParsed :=
  match splitOnce "if-change".data line with
  | some (pre, post) =>
    if isCommentLead pre &&
        (match (trimEndMatches isPunctOrWs post).head? with
         | none => true
         | some c => isAsciiWs c) then
      LineKindParsed.ifChange
    else
      lineTypeThen line
  | none => lineTypeThen line

/-- `BlockNodeBuilder` (via `derive_builder`): every field is optional until
`build` is called. -/
structure BlockNodeBuilder where
  key : Option BlockKey := none
  then_change : Option (List (Nat × BlockKey)) := none
  if_change_lineno : Option Nat := none
  then_change_lineno : Option Nat := none
  end_change_lineno : Option Nat := none
deriving DecidableEq, Repr

/-- The `then_change_push` each-setter: initializes the vector on first push. -/
def BlockNodeBuilder.push (b : BlockNodeBuilder) (e : Nat × BlockKey) : BlockNodeBuilder :=
  { b with then_change := some ((b.then_change.getD []) ++ [e]) }

/-- `BlockNodeBuilder::build`: succeeds only when every field has been set. -/
def BlockNodeBuilder.build (b : BlockNodeBuilder) : Option BlockNode :=
  match b.key, b.then_change, b.if_change_lineno, b.then_change_lineno, b.end_change_lineno with
  | some k, some tc, some i, some t, some e => some ⟨k, tc, i, t, e⟩
  | _, _, _, _, _ => none

/-- `ParseState` from `if_change_then_change2.rs`: the recorded `Nat` is the
line number where the state was entered. -/
inductive PState where
  | noOp
  | ifChange (lineno : Nat) (b : BlockNodeBuilder)
  | thenChange (lineno : Nat) (b : BlockNodeBuilder)
deriving DecidableEq, Repr

/-- The parser's accumulated state: emitted blocks, recorded errors, machine state. -/
structure ParserAcc where
  blocks : List BlockNode
  errors : List Diagnostic
  state : PState
deriving DecidableEq, Repr

/-- `Parser::record_error`: a diagnostic at one line of the input path. -/
def recordError (path : String) (lineno : Nat) (message : String) : Diagnostic :=
  ⟨path, some lineno, none, message⟩

/-- One iteration of the `Parser::parse` loop: dispatch on state × line type. -/
def parseStep (path : String) (i : Nat) (line : List Char) (acc : ParserAcc) : ParserAcc :=
  match acc.state with
  | PState.noOp =>
    match lineType line with
    | LineKindParsed.sourceCode => acc
    | LineKindParsed.ifChange =>
      let b : BlockNodeBuilder := { key := some ⟨path⟩, if_change_lineno := some i }
      { acc with state := PState.ifChange i b }
    | LineKindParsed.thenChangeInline _ =>
      { acc with errors := acc.errors ++ [recordError path i "then-change must follow an if-change"] }
    | LineKindParsed.thenChangeBlockStart =>
      { acc with errors := acc.errors ++ [recordError path i "then-change must follow an if-change"] }
    | LineKindParsed.endChange =>
      { acc with errors := acc.errors ++ [recordError path i "end-change must follow an if-change and then-change"] }
  | PState.ifChange _j b =>
    match lineType line with
    | LineKindParsed.sourceCode => acc
    | LineKindParsed.ifChange =>
      { acc with errors := acc.errors ++ [recordError path i "if-change nesting is not allowed"] }
    | LineKindParsed.thenChangeInline target =>
      let b := (b.push (i, ⟨⟨target⟩⟩))
      let b := { b with then_change_lineno := some i, end_change_lineno := some i }
      match b.build with
      | some node => { acc with blocks := acc.blocks ++ [node], state := PState.noOp }
      | none =>
        { acc with
          errors := acc.errors ++ [recordError path i "internal error: failed to parse if-change-then-change"],
          state := PState.noOp }
    | LineKindParsed.thenChangeBlockStart =>
      { acc with state := PState.thenChange i { b with then_change_lineno := some i } }
    | LineKindParsed.endChange =>
      { acc with errors := acc.errors ++ [recordError path i "end-change must follow an if-change and then-change"] }
  | PState.thenChange j b =>
    match lineType line with
    | LineKindParsed.sourceCode =>
      { acc with state := PState.thenChange j (b.push (i, ⟨⟨trimMatches isPunctOrWs line⟩⟩)) }
    | LineKindParsed.ifChange =>
      { acc with errors := acc.errors ++ [recordError path i "end-change must follow an if-change and then-change"] }
    | LineKindParsed.thenChangeInline _ =>
      { acc with errors := acc.errors ++ [recordError path i "end-change must follow an if-change and then-change"] }
    | LineKindParsed.thenChangeBlockStart =>
      { acc with errors := acc.errors ++ [recordError path i "end-change must follow an if-change and then-change"] }
    | LineKindParsed.endChange =>
      let b := { b with end_change_lineno := some i }
      match b.build with
      | some node => { acc with blocks := acc.blocks ++ [node], state := PState.noOp }
      | none =>
        { acc with
          errors := acc.errors ++ [recordError path i "internal error: failed to parse if-change-then-change"],
          state := PState.noOp }

/-- The enumerated fold of `Parser::parse` over the input lines, starting at
line index `i`. -/
def parseLoop (path : String) (i : Nat) (lns : List (List Char)) (acc : ParserAcc) : ParserAcc :=
  match lns with
  | [] => acc
  | line :: rest => parseLoop path (i + 1) rest (parseStep path i line acc)

/-- The end-of-file step of `Parser::parse`: an unterminated construct is
reported at the line where its most recent marker appeared. -/
def parseEof (path : String) (acc : ParserAcc) : ParserAcc :=
  match acc.state with
  | PState.noOp => acc
  | PState.ifChange i _ =>
    { acc with errors := acc.errors ++ [recordError path i "then-change must follow an if-change"] }
  | PState.thenChange i _ =>
    { acc with errors := acc.errors ++ [recordError path i "end-change must follow an if-change and then-change"] }

/-- The loop and EOF step of `Parser::parse` combined (blocks and errors both kept). -/
def parseAcc (path : String) (content : String) : ParserAcc :=
  parseEof path (parseLoop path 0 (rustLines content.data) ⟨[], [], PState.noOp⟩)

/-- `Parser::parse` / `FileNode::from_str`: `Err(errors)` whenever any error was
recorded, otherwise `Ok(blocks)`. -/
def parseFile (path : String) (content : String) : Except (List Diagnostic) (List BlockNode) :=
  let acc := parseAcc path content
  if acc.errors.isEmpty then Except.ok acc.blocks else Except.error acc.errors

deriving instance DecidableEq for Except

/-- `FileNode`: all blocks found within a single file. -/
structure FileNode where
  blocks : List BlockNode
deriving DecidableEq, Repr

/-- `FileNode::get_corresponding_block`: the first block (in file order) whose
`then_change` list names `src`'s file — matching is by file path alone. -/
def getCorrespondingBlock (fn : FileNode) (src : BlockNode) : Option BlockNode :=
  fn.blocks.find? fun dst => dst.then_change.any fun e => e.2 == src.key

/-! ## External diff shapes (collaborator-owned, `unidiff`), as consumed by `main.rs`. -/

/-- The added/removed/context classification of one diff line. -/
inductive DiffLineKind where
  | added
  | removed
  | context
deriving DecidableEq, Repr

/-- One line of a hunk: a 1-indexed post-diff (target) line number, present
only for context and added lines, plus its classification. -/
structure DiffLine where
  target_line_no : Option Nat
  kind : DiffLineKind
deriving DecidableEq, Repr

/-- A hunk: an ordered sequence of lines. -/
structure Hunk where
  lines : List DiffLine
deriving DecidableEq, Repr

/-- A patched-file record: pre-diff path, post-diff path, hunks. -/
structure PatchedFile where
  source_file : String
  target_file : String
  hunks : List Hunk
deriving DecidableEq, Repr

/-- The filesystem, modelled as path → contents; `read_to_string` succeeds and
`Path::exists` holds exactly on the listed paths. -/
abbrev Fs := List (String × String)

/-- `std::fs::read_to_string`. -/
def fsRead (fs : Fs) (path : String) : Option String :=
  (fs.find? fun e => e.1 == path).map (·.2)

/-- Association-list lookup standing in for `HashMap::get`. -/
def lookupAssoc {α : Type} : List (String × α) → String → Option α
  | [], _ => none
  | e :: es, k => if e.1 == k then some e.2 else lookupAssoc es k

/-- `HashMap::insert`: replace the value in place if the key is present,
otherwise append (the embedding fixes first-insertion iteration order). -/
def assocInsert {α : Type} : List (String × α) → String → α → List (String × α)
  | [], k, v => [(k, v)]
  | e :: es, k, v => if e.1 == k then (k, v) :: es else e :: assocInsert es k v

/-! ## Change correlation (`main.rs`, the `modified_blocks_by_path` loop). -/

/-- The inner per-hunk scan of `main.rs`: `in_ictc_block` tracks whether the
most recent line carrying a target line number fell (0-indexed) inside the
block's content range; each added or removed line seen while that flag is set
marks the block as intersecting. -/
def hunkScan (r : Nat × Nat) (lns : List DiffLine) (inBlock : Bool) : Bool :=
  match lns with
  | [] => false
  | l :: rest =>
    let inB := match l.target_line_no with
      | some n => rangeContains r (n - 1)
      | none => inBlock
    (inB && (l.kind == DiffLineKind.added || l.kind == DiffLineKind.removed)) ||
      hunkScan r rest inB

/-- `main.rs`: whether a block's content range intersects any added/removed
line of any hunk (the "touched"/"modified" test). -/
def blockModified (hunks : List Hunk) (b : BlockNode) : Bool :=
  hunks.any fun h => hunkScan b.content_range h.lines false

/-! ## Discovery BFS (`main.rs`, the `file_nodes_by_path` loop). -/

/-- The diagnostic preloaded for a diff path in case reading it fails. -/
def diffNoExistDiag (path : String) : Diagnostic :=
  ⟨"stdin", none, none, "diff references file that does not exist: '" ++ path ++ "'"⟩

/-- "then-change references file that does not exist", at the declaring line. -/
def tcNoExistDiag (blockPath : String) (lineno : Nat) (target : String) : Diagnostic :=
  ⟨blockPath, some lineno, none, "then-change references file that does not exist: '" ++ target ++ "'"⟩

/-- The diagnostic preloaded for a pushed then-change target in case reading it
later fails. -/
def tcNoReadDiag (blockPath : String) (lineno : Nat) (target : String) : Diagnostic :=
  ⟨blockPath, some lineno, none, "then-change references file that could not be read: '" ++ target ++ "'"⟩

/-- The per-entry body of the `then_change` retain-filter in `main.rs`:
keeps diff-path targets; silently drops self references; drops nonexistent
targets with a diagnostic; enqueues existing unindexed targets.
Returns (keep, emitted diagnostics, queue pushes). -/
def processEntry (diffPaths : List String) (fs : Fs) (ret : List (String × FileNode))
    (blockPath : String) (e : Nat × BlockKey) :
    Bool × List Diagnostic × List (Diagnostic × String) :=
  if diffPaths.contains e.2.path then (true, [], [])
  else if blockPath == e.2.path then (false, [], [])
  else if (fsRead fs e.2.path).isNone then
    (false, [tcNoExistDiag blockPath e.1 e.2.path], [])
  else if (lookupAssoc ret e.2.path).isNone then
    (true, [], [(tcNoReadDiag blockPath e.1 e.2.path, e.2.path)])
  else (true, [], [])

/-- The retain-filter applied to one block's `then_change` list, in order. -/
def filterEntries (diffPaths : List String) (fs : Fs) (ret : List (String × FileNode))
    (blockPath : String) (es : List (Nat × BlockKey)) :
    List (Nat × BlockKey) × List Diagnostic × List (Diagnostic × String) :=
  match es with
  | [] => ([], [], [])
  | e :: rest =>
    let r := processEntry diffPaths fs ret blockPath e
    let rst := filterEntries diffPaths fs ret blockPath rest
    ((if r.1 then [e] else []) ++ rst.1, r.2.1 ++ rst.2.1, r.2.2 ++ rst.2.2)

/-- The retain-filter applied to every block of a freshly parsed file. -/
def filterBlocks (diffPaths : List String) (fs : Fs) (ret : List (String × FileNode)) :
    List BlockNode → List BlockNode × List Diagnostic × List (Diagnostic × String)
  | [] => ([], [], [])
  | b :: rest =>
    let r := filterEntries diffPaths fs ret b.key.path b.then_change
    let rst := filterBlocks diffPaths fs ret rest
    ({ b with then_change := r.1 } :: rst.1, r.2.1 ++ rst.2.1, r.2.2 ++ rst.2.2)

/-- The BFS worklist state: the index built so far, the queue of paths still to
read (each with its read-failure diagnostic), and accumulated diagnostics. -/
structure BfsState where
  ret : List (String × FileNode)
  search : List (Diagnostic × String)
  diags : List Diagnostic
deriving DecidableEq, Repr

/-- One iteration of the discovery loop: pop a path, read and parse it, filter
its obligations (emitting diagnostics and enqueuing new targets), insert it. -/
def bfsStep (diffPaths : List String) (fs : Fs) (dfail : Diagnostic) (path : String)
    (rest : List (Diagnostic × String)) (st : BfsState) : BfsState :=
  match fsRead fs path with
  | none => { st with search := rest, diags := st.diags ++ [dfail] }
  | some content =>
    match parseFile path content with
    | Except.error errs => { st with search := rest, diags := st.diags ++ errs }
    | Except.ok blocks =>
      let r := filterBlocks diffPaths fs st.ret blocks
      { ret := assocInsert st.ret path ⟨r.1⟩,
        search := rest ++ r.2.2,
        diags := st.diags ++ r.2.1 }

/-- The discovery loop, fuelled (the source's loop runs until the queue is
empty; sufficient fuel reproduces it, and `search = []` witnesses completion). -/
def bfsRun (diffPaths : List String) (fs : Fs) : Nat → BfsState → BfsState
  | 0, st => st
  | fuel + 1, st =>
    match st.search with
    | [] => st
    | (dfail, path) :: rest =>
      bfsRun diffPaths fs fuel (bfsStep diffPaths fs dfail path rest st)

/-- The initial worklist: every post-diff path, each preloaded with its
"diff references file that does not exist" diagnostic. -/
def initialBfsState (diffPaths : List String) (diags0 : List Diagnostic) : BfsState :=
  ⟨[], diffPaths.map fun p => (diffNoExistDiag p, p), diags0⟩

/-- `file_nodes_by_path` with threaded diagnostics: run the BFS from the diff's
paths. -/
def discover (diffPaths : List String) (fs : Fs) (fuel : Nat) (diags0 : List Diagnostic) : BfsState :=
  bfsRun diffPaths fs fuel (initialBfsState diffPaths diags0)

/-! ## Diagnostic engine (`main.rs`, the final loop), and the full pipeline. -/

/-- The position string `<path>:<start+1>-<stop>` of a block's content range,
as interpolated into engine messages. -/
def blockPosStr (b : BlockNode) : String :=
  positionFmt b.key.path (some b.content_range.1) (some b.content_range.2)

/-- The per-obligation body of the diagnostics loop in `main.rs`: an obligation
from touched block `B` to target path `k.path` is silently satisfied when the
target's touched blocks reverse-match `B`; otherwise one or two diagnostics. -/
def entryDiagnostics (mods index : List (String × FileNode)) (diffPaths : List String)
    (B : BlockNode) (k : BlockKey) : List Diagnostic :=
  let satisfied := match lookupAssoc mods k.path with
    | some fn => (getCorrespondingBlock fn B).isSome
    | none => false
  if satisfied then []
  else
    let blockRange : Option (Nat × Nat) :=
      match lookupAssoc index k.path with
      | some fns => (getCorrespondingBlock fns B).map (·.content_range)
      | none => none
    (if blockRange.isNone then
      [⟨k.path, blockRange.map (·.1), blockRange.map (·.2),
        "expected an if-change-then-change in this file that matches " ++ blockPosStr B⟩]
     else []) ++
    (if blockRange.isSome || !(diffPaths.contains k.path) then
      [⟨k.path, blockRange.map (·.1), blockRange.map (·.2),
        "expected change here due to change in " ++ blockPosStr B⟩]
     else [])

/-- The diagnostics loop over every obligation of every touched block. -/
def engineDiagnostics (mods index : List (String × FileNode)) (diffPaths : List String) :
    List Diagnostic :=
  (mods.flatMap fun pfn => pfn.2.blocks).flatMap fun B =>
    B.then_change.flatMap fun e => entryDiagnostics mods index diffPaths B e.2

/-- `modified_blocks_by_path`: for every indexed file that is in the diff, the
subset of its blocks the diff touched; files with no touched blocks omitted. -/
def buildModified (diffs : List (String × PatchedFile)) (index : List (String × FileNode)) :
    List (String × FileNode) :=
  index.foldl
    (fun acc pfn =>
      match lookupAssoc diffs pfn.1 with
      | none => acc
      | some pf =>
        let mblocks := pfn.2.blocks.filter fun b => blockModified pf.hunks b
        if mblocks.isEmpty then acc else acc ++ [(pfn.1, ⟨mblocks⟩)])
    []

/-- The git-diff path-pair validation diagnostic of `main.rs`. -/
def invalidGitDiag (sf tf : String) : Diagnostic :=
  ⟨"stdin", none, none,
   "invalid git diff: expected a/before.path -> b/after.path, but got '" ++ sf ++ "' -> '" ++ tf ++ "'"⟩

/-- `diffs_by_post_diff_path`: key every surviving patched file by its post-diff
path, stripping `b/` for git diffs, excluding deletions, and flagging invalid
git path pairs. -/
def buildDiffsByPath (isGitDiff : Bool) (files : List PatchedFile) :
    List (String × PatchedFile) × List Diagnostic :=
  files.foldl
    (fun acc pf =>
      if isGitDiff then
        let sv := pf.source_file.startsWith "a/" || pf.source_file == "/dev/null"
        let tv := pf.target_file.startsWith "b/" || pf.target_file == "/dev/null"
        if !(sv && tv) then
          (acc.1, acc.2 ++ [invalidGitDiag pf.source_file pf.target_file])
        else if pf.target_file.startsWith "b/" then
          (assocInsert acc.1 (pf.target_file.drop 2) pf, acc.2)
        else acc
      else
        if pf.target_file == "/dev/null" then acc
        else (assocInsert acc.1 pf.target_file pf, acc.2))
    ([], [])

/-- The sort key of the derived `Ord` on `Diagnostic`, encoded as one `List Nat`
compared lexicographically: characters are shifted by one so that the `0`
terminator after the path orders a shorter path first (Rust tuple order), and
an `Option Nat` is `[0]` (`None`, least) or `[1, n]`; the message needs no
terminator because it is the last field. -/
def diagKey (d : Diagnostic) : List Nat :=
  (d.path.data.map fun c => c.toNat + 1) ++ [0] ++
  (match d.start_line with | none => [0] | some n => [1, n]) ++
  (match d.end_line with | none => [0] | some n => [1, n]) ++
  (d.message.data.map fun c => c.toNat + 1)

/-- The total order `diagnostics.sort()` sorts by: derived lexicographic order
over (path, start_line, end_line, message), `None` before `Some`. -/
def diagLe (a b : Diagnostic) : Prop :=
  diagKey a ≤ diagKey b

instance : DecidableRel diagLe := fun a b => inferInstanceAs (Decidable (diagKey a ≤ diagKey b))

instance : IsTotal Diagnostic diagLe := ⟨fun a b => le_total (diagKey a) (diagKey b)⟩

instance : IsTrans Diagnostic diagLe := ⟨fun _ _ _ h₁ h₂ => le_trans h₁ h₂⟩

/-- `diagnostics.sort()`: a stable sort by the derived total order. -/
def sortDiags (l : List Diagnostic) : List Diagnostic :=
  List.insertionSort diagLe l

/-- The pipeline of `run` from `main.rs` downstream of building
`diffs_by_post_diff_path`, with the order in which the map's `keys()` iterator
yields the diff paths made explicit as `keyOrder`. The real map's iteration
order is unspecified and varies between processes, so every permutation of the
key set is a possible execution of the program; the worklist is seeded in that
order and popped paths are not checked against the index before reprocessing. -/
def runFromKeys (diffs : List (String × PatchedFile)) (keyOrder : List String)
    (fs : Fs) (fuel : Nat) (diags0 : List Diagnostic) : List Diagnostic :=
  let stF := discover keyOrder fs fuel diags0
  let mods := buildModified diffs stF.ret
  sortDiags (stF.diags ++ engineDiagnostics mods stF.ret keyOrder)

/-- `run` from `main.rs`, downstream of reading stdin and parsing the diff
envelope: build the path-keyed diff map, then run the rest of the pipeline on
its keys (the embedding fixes the unspecified key iteration order to
first-insertion order). -/
def runTool (isGitDiff : Bool) (files : List PatchedFile) (fs : Fs) (fuel : Nat) :
    List Diagnostic :=
  let built := buildDiffsByPath isGitDiff files
  runFromKeys built.1 (built.1.map (·.1)) fs fuel built.2

/-! ## Comparison definitions written from the spec's wording (not from the source). -/

/-- The touched-block test as the spec's words state it: the content range
contains at least one line that is classified added or removed, containment
being judged by the line's own (present) target line number. For comparison
with `blockModified`. -/
def specTouched (hunks : List Hunk) (b : BlockNode) : Bool :=
  hunks.any fun h => h.lines.any fun l =>
    (l.kind == DiffLineKind.added || l.kind == DiffLineKind.removed) &&
    (match l.target_line_no with
     | some n => rangeContains b.content_range (n - 1)
     | none => false)

/-- The in-block flag that `hunkScan` carries at a given point of a hunk,
written declaratively: decided by the most recent line (in the prefix seen so
far) that carries a target line number, defaulting to `b₀` when none does. -/
def effectiveInBlock (r : Nat × Nat) (b₀ : Bool) (pre : List DiffLine) : Bool :=
  match (pre.filterMap (·.target_line_no)).getLast? with
  | some n => rangeContains r (n - 1)
  | none => b₀

/-- Declarative reformulation of the per-hunk scan: some line is added or
removed while the most recent target line number seen up to and including it
lies inside the range (out-of-range when no such number exists yet). -/
def stickyTouched (r : Nat × Nat) (lns : List DiffLine) : Bool :=
  (List.range lns.length).any fun i =>
    match lns[i]? with
    | none => false
    | some l =>
      (l.kind == DiffLineKind.added || l.kind == DiffLineKind.removed) &&
        effectiveInBlock r false (lns.take (i + 1))

/-- The ordering a finished block enjoys: the if-change marker strictly
precedes the then-change marker, which is at or before the end-change marker. -/
def blockOrdered (b : BlockNode) : Prop :=
  b.if_change_lineno < b.then_change_lineno ∧ b.then_change_lineno ≤ b.end_change_lineno

/-- The parser-state part of the loop invariant at the point where `n` lines
have been consumed. -/
def stateOk : PState → Nat → Prop
  | PState.noOp, _ => True
  | PState.ifChange i b, n =>
      b.key.isSome = true ∧ b.if_change_lineno = some i ∧ b.then_change_lineno = none ∧
      b.end_change_lineno = none ∧ b.then_change = none ∧ i < n
  | PState.thenChange t b, n =>
      b.key.isSome = true ∧ (∃ i, b.if_change_lineno = some i ∧ i < t) ∧
      b.then_change_lineno = some t ∧ b.end_change_lineno = none ∧ t < n

/-- The full loop invariant: every emitted block is ordered, and the in-flight
builder's recorded line numbers are consistent with the position reached. -/
def accOk (acc : ParserAcc) (n : Nat) : Prop :=
  (∀ blk ∈ acc.blocks, blockOrdered blk) ∧ stateOk acc.state n

/-- A then-change target path is accounted for in a BFS state: already indexed,
a diff path, still queued, or readable but unparsable. -/
def entryJustified (diffPaths : List String) (fs : Fs) (st : BfsState) (t : String) : Prop :=
  (lookupAssoc st.ret t).isSome = true ∨ t ∈ diffPaths ∨ (∃ d, (d, t) ∈ st.search) ∨
  (∃ c, fsRead fs t = some c ∧ ∃ errs, parseFile t c = Except.error errs)

/-- Closure invariant: every obligation kept in any indexed file is accounted for. -/
def retClosed (diffPaths : List String) (fs : Fs) (st : BfsState) : Prop :=
  ∀ pfn ∈ st.ret, ∀ b ∈ FileNode.blocks pfn.2, ∀ e ∈ b.then_change,
    entryJustified diffPaths fs st e.2.path

/-- Queue invariant: every queued path is a diff path or exists on disk. -/
def queueReadable (diffPaths : List String) (fs : Fs) (st : BfsState) : Prop :=
  ∀ ds ∈ st.search, ds.2 ∈ diffPaths ∨ (fsRead fs ds.2).isSome = true


/-! ## Concrete fixtures used by witnesses and counterexamples. -/

/-- A three-file filesystem forming a two-hop then-change chain a → b → c. -/
def chainFs : Fs :=
  [("a", "# if-change\nx\n# then-change b\n"),
   ("b", "# if-change\ny\n# then-change c\n"),
   ("c", "")]

/-- A file whose first line is a stray end-change and which also contains one
well-formed inline block. -/
def mixedContent : String := "# end-change\n# if-change\nx\n# then-change t.foo\n"

/-- A block in file `a` whose then-change list names its own file `a`. -/
def selfBlock : BlockNode := ⟨⟨"a"⟩, [(2, ⟨"a"⟩)], 0, 2, 2⟩

/-- The touched-block map containing only `selfBlock` under its own path. -/
def selfMods : List (String × FileNode) := [("a", ⟨[selfBlock]⟩)]

/-- Two blocks of the same file (same key) with different regions and targets. -/
def twinBlockA : BlockNode := ⟨⟨"a"⟩, [(2, ⟨"t1"⟩)], 0, 2, 2⟩

/-- The second block of the same file, declaring a different target. -/
def twinBlockB : BlockNode := ⟨⟨"a"⟩, [(6, ⟨"t2"⟩)], 4, 6, 6⟩

/-- A target file with one block that reverse-matches file `a` (and only one). -/
def targetFn : FileNode := ⟨[⟨⟨"t"⟩, [(2, ⟨"a"⟩)], 0, 2, 2⟩, ⟨⟨"t"⟩, [(6, ⟨"a"⟩)], 4, 6, 6⟩]⟩

/-- A four-file filesystem in a diamond: diff files `a` and `b` target `q` and
`r` respectively, `r` targets `q` again, and `q` targets the nonexistent `n`. -/
def probeFs : Fs :=
  [("a", "# if-change\nx\n# then-change q\n"),
   ("b", "# if-change\ny\n# then-change r\n"),
   ("q", "# if-change\nz\n# then-change n\n"),
   ("r", "# if-change\nw\n# then-change q\n")]

/-- The path-keyed diff map for a plain (non-git) diff touching `a` and `b`
with no hunks. -/
def probeDiffs : List (String × PatchedFile) :=
  (buildDiffsByPath false [⟨"a", "a", []⟩, ⟨"b", "b", []⟩]).1

/-! ## Helper lemmas. -/

theorem getLast?_cons_of_ne_nil {α : Type} (a : α) (xs : List α) (h : xs ≠ []) :
    (a :: xs).getLast? = xs.getLast? := by
  cases xs with
  | nil => exact absurd rfl h
  | cons b ys => rw [List.getLast?_cons_cons]

theorem effectiveInBlock_cons (r : Nat × Nat) (b₀ : Bool) (l : DiffLine) (pre : List DiffLine) :
    effectiveInBlock r b₀ (l :: pre) =
      effectiveInBlock r
        (match l.target_line_no with
         | some n => rangeContains r (n - 1)
         | none => b₀) pre := by
  unfold effectiveInBlock
  cases htl : l.target_line_no with
  | none => simp [List.filterMap_cons, htl]
  | some m =>
    simp only [List.filterMap_cons, htl]
    cases hfm : (pre.filterMap (·.target_line_no)) with
    | nil => simp [hfm]
    | cons x xs =>
      rw [getLast?_cons_of_ne_nil m (x :: xs) (by simp)]
      cases hgl : (x :: xs).getLast? with
      | none => simp at hgl
      | some y => simp [hgl]

theorem hunkScan_eq_stickyAux (r : Nat × Nat) :
    ∀ (lns : List DiffLine) (b₀ : Bool),
      hunkScan r lns b₀ =
        (List.range lns.length).any fun i =>
          match lns[i]? with
          | none => false
          | some l =>
            (l.kind == DiffLineKind.added || l.kind == DiffLineKind.removed) &&
              effectiveInBlock r b₀ (lns.take (i + 1)) := by
  intro lns
  induction lns with
  | nil => intro b₀; simp [hunkScan]
  | cons l rest ih =>
    intro b₀
    rw [hunkScan]
    rw [List.length_cons, List.range_succ_eq_map, List.any_cons, List.any_map]
    have h0 : (match (l :: rest)[0]? with
        | none => false
        | some x =>
          (x.kind == DiffLineKind.added || x.kind == DiffLineKind.removed) &&
            effectiveInBlock r b₀ ((l :: rest).take 1)) =
        ((match l.target_line_no with
          | some n => rangeContains r (n - 1)
          | none => b₀) &&
         (l.kind == DiffLineKind.added || l.kind == DiffLineKind.removed)) := by
      simp only [List.getElem?_cons_zero, List.take_cons, List.take_zero]
      rw [Bool.and_comm]
      congr 1
      unfold effectiveInBlock
      cases htl : l.target_line_no <;> simp [List.filterMap_cons, htl]
    have hrest : ∀ i : Nat,
        (Function.comp (fun i =>
          match (l :: rest)[i]? with
          | none => false
          | some x =>
            (x.kind == DiffLineKind.added || x.kind == DiffLineKind.removed) &&
              effectiveInBlock r b₀ ((l :: rest).take (i + 1))) Nat.succ) i =
        (fun i =>
          match rest[i]? with
          | none => false
          | some x =>
            (x.kind == DiffLineKind.added || x.kind == DiffLineKind.removed) &&
              effectiveInBlock r
                (match l.target_line_no with
                 | some n => rangeContains r (n - 1)
                 | none => b₀) (rest.take (i + 1))) i := by
      intro i
      simp only [Function.comp]
      cases hri : rest[i]? with
      | none => simp [hri]
      | some x =>
        simp only [List.getElem?_cons_succ, hri]
        rw [List.take_cons, effectiveInBlock_cons]
        · simp
        · omega
    rw [h0]
    rw [funext hrest]
    rw [← ih]

theorem hunkScan_eq_sticky (r : Nat × Nat) (lns : List DiffLine) :
    hunkScan r lns false = stickyTouched r lns := by
  rw [stickyTouched, hunkScan_eq_stickyAux]

theorem stateOk_mono {s : PState} {n m : Nat} (h : stateOk s n) (hnm : n ≤ m) : stateOk s m := by
  cases s with
  | noOp => trivial
  | ifChange i b => exact ⟨h.1, h.2.1, h.2.2.1, h.2.2.2.1, h.2.2.2.2.1, lt_of_lt_of_le h.2.2.2.2.2 hnm⟩
  | thenChange t b => exact ⟨h.1, h.2.1, h.2.2.1, h.2.2.2.1, lt_of_lt_of_le h.2.2.2.2 hnm⟩


theorem parseStep_ok (path : String) (i : Nat) (line : List Char) (acc : ParserAcc)
    (h : accOk acc i) : accOk (parseStep path i line acc) (i + 1) := by
  obtain ⟨bl, er, st⟩ := acc
  obtain ⟨hblocks, hstate⟩ := h
  cases st with
  | noOp =>
    unfold parseStep
    cases hlt : lineType line with
    | ifChange => exact ⟨hblocks, rfl, rfl, rfl, rfl, rfl, Nat.lt_succ_self i⟩
    | sourceCode => exact ⟨hblocks, trivial⟩
    | thenChangeInline target => exact ⟨hblocks, trivial⟩
    | thenChangeBlockStart => exact ⟨hblocks, trivial⟩
    | endChange => exact ⟨hblocks, trivial⟩
  | ifChange j b =>
    obtain ⟨hkey, hif, hthen, hend, htc, hlt⟩ := hstate
    obtain ⟨k, hk⟩ := Option.isSome_iff_exists.mp hkey
    unfold parseStep
    cases hlt2 : lineType line with
    | sourceCode => exact ⟨hblocks, hkey, hif, hthen, hend, htc, Nat.lt_succ_of_lt hlt⟩
    | ifChange => exact ⟨hblocks, hkey, hif, hthen, hend, htc, Nat.lt_succ_of_lt hlt⟩
    | thenChangeInline target =>
      simp only [BlockNodeBuilder.push, htc, hif, hk, Option.getD, BlockNodeBuilder.build,
        List.nil_append]
      refine ⟨?_, trivial⟩
      intro blk hblk
      rcases List.mem_append.mp hblk with hmem | hmem
      · exact hblocks blk hmem
      · rcases List.mem_singleton.mp hmem with rfl
        exact ⟨hlt, le_refl _⟩
    | thenChangeBlockStart =>
      exact ⟨hblocks, hkey, ⟨j, hif, hlt⟩, rfl, hend, Nat.lt_succ_self i⟩
    | endChange => exact ⟨hblocks, ⟨hkey, hif, hthen, hend, htc, Nat.lt_succ_of_lt hlt⟩⟩
  | thenChange t b =>
    obtain ⟨hkey, ⟨j, hif, hjt⟩, hthen, hend, hlt⟩ := hstate
    obtain ⟨k, hk⟩ := Option.isSome_iff_exists.mp hkey
    unfold parseStep
    cases hlt2 : lineType line with
    | sourceCode =>
      refine ⟨hblocks, ?_⟩
      refine ⟨?_, ⟨j, hif, hjt⟩, hthen, hend, Nat.lt_succ_of_lt hlt⟩
      simp [BlockNodeBuilder.push, hk]
    | ifChange => exact ⟨hblocks, hkey, ⟨j, hif, hjt⟩, hthen, hend, Nat.lt_succ_of_lt hlt⟩
    | thenChangeInline target =>
      exact ⟨hblocks, hkey, ⟨j, hif, hjt⟩, hthen, hend, Nat.lt_succ_of_lt hlt⟩
    | thenChangeBlockStart =>
      exact ⟨hblocks, hkey, ⟨j, hif, hjt⟩, hthen, hend, Nat.lt_succ_of_lt hlt⟩
    | endChange =>
      cases htc : b.then_change with
      | none =>
        simp only [hk, hif, hthen, htc, BlockNodeBuilder.build]
        exact ⟨hblocks, trivial⟩
      | some tc =>
        simp only [hk, hif, hthen, htc, BlockNodeBuilder.build]
        refine ⟨?_, trivial⟩
        intro blk hblk
        rcases List.mem_append.mp hblk with hmem | hmem
        · exact hblocks blk hmem
        · rcases List.mem_singleton.mp hmem with rfl
          exact ⟨hjt, le_of_lt hlt⟩

theorem parseLoop_ok (path : String) :
    ∀ (lns : List (List Char)) (i : Nat) (acc : ParserAcc),
      accOk acc i → accOk (parseLoop path i lns acc) (i + lns.length) := by
  intro lns
  induction lns with
  | nil => intro i acc h; simpa [parseLoop] using h
  | cons line rest ih =>
    intro i acc h
    rw [parseLoop]
    have h1 := parseStep_ok path i line acc h
    have h2 := ih (i + 1) _ h1
    simpa [Nat.add_comm, Nat.add_assoc, Nat.add_left_comm] using h2

theorem parseEof_blocks (path : String) (acc : ParserAcc) :
    (parseEof path acc).blocks = acc.blocks := by
  unfold parseEof
  cases acc.state <;> rfl

/-- Every block accumulated by the parser loop (before the `Err`/`Ok` split)
satisfies the strict marker ordering. -/
theorem parseAcc_blocks_ordered (path content : String) :
    ∀ blk ∈ (parseAcc path content).blocks, blockOrdered blk := by
  intro blk hblk
  have h0 : accOk (⟨[], [], PState.noOp⟩ : ParserAcc) 0 := ⟨(by intro b hb; cases hb), trivial⟩
  have h := parseLoop_ok path (rustLines content.data) 0 ⟨[], [], PState.noOp⟩ h0
  rw [parseAcc, parseEof_blocks] at hblk
  exact h.1 blk hblk

/-- Blocks returned by a successful parse satisfy the strict marker ordering. -/
theorem parseFile_blocks_ordered (path content : String) (bs : List BlockNode)
    (h : parseFile path content = Except.ok bs) :
    ∀ blk ∈ bs, blockOrdered blk := by
  intro blk hblk
  apply parseAcc_blocks_ordered path content
  unfold parseFile at h
  by_cases he : (parseAcc path content).errors.isEmpty
  · simp [he] at h
    rwa [h]
  · simp [he] at h

theorem lookupAssoc_assocInsert {α : Type} (l : List (String × α)) (k t : String) (v : α) :
    lookupAssoc (assocInsert l k v) t = if t = k then some v else lookupAssoc l t := by
  induction l with
  | nil =>
    by_cases h : t = k
    · subst h; simp [assocInsert, lookupAssoc]
    · have hkt : (k == t) = false := by simp; intro hh; exact h hh.symm
      simp [assocInsert, lookupAssoc, h, hkt]
  | cons e es ih =>
    by_cases he : e.1 == k
    · have he' : e.1 = k := by simpa using he
      by_cases h : t = k
      · subst h; simp [assocInsert, lookupAssoc, he]
      · rw [assocInsert]
        simp only [he, if_true]
        rw [lookupAssoc, lookupAssoc]
        have hkt : (k == t) = false := by simp; intro hh; exact h hh.symm
        have het : (e.1 == t) = false := by rw [he']; exact hkt
        simp [hkt, het, h]
    · have he' : (e.1 == k) = false := by simpa using he
      rw [assocInsert]
      simp only [he', if_false, Bool.false_eq_true]
      rw [lookupAssoc, lookupAssoc]
      by_cases hf : e.1 == t
      · have : ¬ t = k := by
          intro hh; subst hh
          have : e.1 = t := by simpa using hf
          simp [this] at he'
        simp [hf, this]
      · have hf' : (e.1 == t) = false := by simpa using hf
        simp only [hf', if_false, Bool.false_eq_true]
        exact ih

theorem lookupAssoc_isSome_assocInsert {α : Type} (l : List (String × α)) (k t : String) (v : α)
    (h : (lookupAssoc l t).isSome = true) :
    (lookupAssoc (assocInsert l k v) t).isSome = true := by
  rw [lookupAssoc_assocInsert]
  by_cases hk : t = k
  · simp [hk]
  · simpa [hk] using h

theorem mem_assocInsert {α : Type} (l : List (String × α)) (k : String) (v : α)
    (x : String × α) (h : x ∈ assocInsert l k v) : x ∈ l ∨ x = (k, v) := by
  induction l with
  | nil =>
    rw [assocInsert] at h
    exact Or.inr (List.mem_singleton.mp h)
  | cons e es ih =>
    rw [assocInsert] at h
    by_cases he : e.1 == k
    · simp only [he, if_true] at h
      rcases List.mem_cons.mp h with h1 | h1
      · exact Or.inr h1
      · exact Or.inl (List.mem_cons_of_mem e h1)
    · have he' : (e.1 == k) = false := by simpa using he
      simp only [he', if_false, Bool.false_eq_true] at h
      rcases List.mem_cons.mp h with h1 | h1
      · exact Or.inl (h1 ▸ List.mem_cons_self e es)
      · rcases ih h1 with h2 | h2
        · exact Or.inl (List.mem_cons_of_mem e h2)
        · exact Or.inr h2

theorem processEntry_keep (diffPaths : List String) (fs : Fs) (ret : List (String × FileNode))
    (blockPath : String) (e : Nat × BlockKey)
    (h : (processEntry diffPaths fs ret blockPath e).1 = true) :
    e.2.path ∈ diffPaths ∨ (lookupAssoc ret e.2.path).isSome = true ∨
      ∃ d, (d, e.2.path) ∈ (processEntry diffPaths fs ret blockPath e).2.2 := by
  rw [processEntry] at h ⊢
  split_ifs at h ⊢ with h1 h2 h3 h4
  · exact Or.inl (by simpa using h1)
  · exact Or.inr (Or.inr ⟨tcNoReadDiag blockPath e.1 e.2.path, by simp⟩)
  · refine Or.inr (Or.inl ?_)
    simpa [Option.isNone_iff_eq_none, Option.isSome_iff_ne_none] using h4

theorem processEntry_push_readable (diffPaths : List String) (fs : Fs)
    (ret : List (String × FileNode)) (blockPath : String) (e : Nat × BlockKey)
    (d : Diagnostic) (t : String) (h : (d, t) ∈ (processEntry diffPaths fs ret blockPath e).2.2) :
    (fsRead fs t).isSome = true := by
  rw [processEntry] at h
  split_ifs at h with h1 h2 h3 h4
  · simp at h
  · simp at h
  · simp at h
  · rcases List.mem_singleton.mp h with hx
    have ht : t = e.2.path := congrArg Prod.snd hx
    subst ht
    simpa [Option.isNone_iff_eq_none, Option.isSome_iff_ne_none] using h3
  · simp at h

theorem filterEntries_spec (diffPaths : List String) (fs : Fs)
    (ret : List (String × FileNode)) (blockPath : String) :
    ∀ (es : List (Nat × BlockKey)) (e : Nat × BlockKey),
      e ∈ (filterEntries diffPaths fs ret blockPath es).1 →
      (processEntry diffPaths fs ret blockPath e).1 = true ∧
      ∀ p ∈ (processEntry diffPaths fs ret blockPath e).2.2,
        p ∈ (filterEntries diffPaths fs ret blockPath es).2.2 := by
  intro es
  induction es with
  | nil => intro e h; simp [filterEntries] at h
  | cons e0 rest ih =>
    intro e h
    rw [filterEntries] at h ⊢
    simp only [List.mem_append] at h
    rcases h with h | h
    · by_cases hk : (processEntry diffPaths fs ret blockPath e0).1 = true
      · simp only [hk, if_true, List.mem_singleton] at h
        subst h
        exact ⟨hk, fun p hp => List.mem_append.mpr (Or.inl hp)⟩
      · simp [hk] at h
    · obtain ⟨h1, h2⟩ := ih e h
      exact ⟨h1, fun p hp => List.mem_append.mpr (Or.inr (h2 p hp))⟩

theorem filterEntries_push_readable (diffPaths : List String) (fs : Fs)
    (ret : List (String × FileNode)) (blockPath : String) :
    ∀ (es : List (Nat × BlockKey)) (d : Diagnostic) (t : String),
      (d, t) ∈ (filterEntries diffPaths fs ret blockPath es).2.2 →
      (fsRead fs t).isSome = true := by
  intro es
  induction es with
  | nil => intro d t h; simp [filterEntries] at h
  | cons e0 rest ih =>
    intro d t h
    rw [filterEntries] at h
    rcases List.mem_append.mp h with h | h
    · exact processEntry_push_readable diffPaths fs ret blockPath e0 d t h
    · exact ih d t h

theorem filterBlocks_spec (diffPaths : List String) (fs : Fs)
    (ret : List (String × FileNode)) :
    ∀ (bs : List BlockNode) (b : BlockNode), b ∈ (filterBlocks diffPaths fs ret bs).1 →
      ∀ e ∈ b.then_change,
        (processEntry diffPaths fs ret b.key.path e).1 = true ∧
        ∀ p ∈ (processEntry diffPaths fs ret b.key.path e).2.2,
          p ∈ (filterBlocks diffPaths fs ret bs).2.2 := by
  intro bs
  induction bs with
  | nil => intro b h; simp [filterBlocks] at h
  | cons b0 rest ih =>
    intro b h e he
    rw [filterBlocks] at h ⊢
    rcases List.mem_cons.mp h with h | h
    · subst h
      simp only at he
      obtain ⟨h1, h2⟩ := filterEntries_spec diffPaths fs ret b0.key.path b0.then_change e he
      exact ⟨h1, fun p hp => List.mem_append.mpr (Or.inl (h2 p hp))⟩
    · obtain ⟨h1, h2⟩ := ih b h e he
      exact ⟨h1, fun p hp => List.mem_append.mpr (Or.inr (h2 p hp))⟩

theorem filterBlocks_push_readable (diffPaths : List String) (fs : Fs)
    (ret : List (String × FileNode)) :
    ∀ (bs : List BlockNode) (d : Diagnostic) (t : String),
      (d, t) ∈ (filterBlocks diffPaths fs ret bs).2.2 → (fsRead fs t).isSome = true := by
  intro bs
  induction bs with
  | nil => intro d t h; simp [filterBlocks] at h
  | cons b0 rest ih =>
    intro d t h
    rw [filterBlocks] at h
    rcases List.mem_append.mp h with h | h
    · exact filterEntries_push_readable diffPaths fs ret b0.key.path b0.then_change d t h
    · exact ih d t h

theorem bfsStep_inv (diffPaths : List String) (fs : Fs) (dfail : Diagnostic) (path : String)
    (rest : List (Diagnostic × String)) (st : BfsState)
    (hsearch : st.search = (dfail, path) :: rest)
    (hret : retClosed diffPaths fs st) (hq : queueReadable diffPaths fs st) :
    retClosed diffPaths fs (bfsStep diffPaths fs dfail path rest st) ∧
    queueReadable diffPaths fs (bfsStep diffPaths fs dfail path rest st) := by
  cases hread : fsRead fs path with
  | none =>
    have heq : bfsStep diffPaths fs dfail path rest st =
        { st with search := rest, diags := st.diags ++ [dfail] } := by
      simp only [bfsStep, hread]
    rw [heq]
    constructor
    · intro pfn hp b hb e he
      have hj := hret pfn hp b hb e he
      rcases hj with h | h | ⟨d, hd⟩ | h
      · exact Or.inl h
      · exact Or.inr (Or.inl h)
      · rw [hsearch] at hd
        rcases List.mem_cons.mp hd with hd | hd
        · have ht : e.2.path = path := congrArg Prod.snd hd
          have hqq := hq (dfail, path) (by rw [hsearch]; exact List.mem_cons_self _ _)
          rcases hqq with hdiff | hsome
          · exact Or.inr (Or.inl (ht ▸ hdiff))
          · rw [hread] at hsome
            simp at hsome
        · exact Or.inr (Or.inr (Or.inl ⟨d, hd⟩))
      · exact Or.inr (Or.inr (Or.inr h))
    · intro ds hds
      exact hq ds (by rw [hsearch]; exact List.mem_cons_of_mem _ hds)
  | some content =>
    cases hparse : parseFile path content with
    | error errs =>
      have heq : bfsStep diffPaths fs dfail path rest st =
          { st with search := rest, diags := st.diags ++ errs } := by
        simp only [bfsStep, hread, hparse]
      rw [heq]
      constructor
      · intro pfn hp b hb e he
        have hj := hret pfn hp b hb e he
        rcases hj with h | h | ⟨d, hd⟩ | h
        · exact Or.inl h
        · exact Or.inr (Or.inl h)
        · rw [hsearch] at hd
          rcases List.mem_cons.mp hd with hd | hd
          · have ht : e.2.path = path := congrArg Prod.snd hd
            exact Or.inr (Or.inr (Or.inr ⟨content, ht ▸ hread, errs, ht ▸ hparse⟩))
          · exact Or.inr (Or.inr (Or.inl ⟨d, hd⟩))
        · exact Or.inr (Or.inr (Or.inr h))
      · intro ds hds
        exact hq ds (by rw [hsearch]; exact List.mem_cons_of_mem _ hds)
    | ok blocks =>
      have heq : bfsStep diffPaths fs dfail path rest st =
          { ret := assocInsert st.ret path ⟨(filterBlocks diffPaths fs st.ret blocks).1⟩,
            search := rest ++ (filterBlocks diffPaths fs st.ret blocks).2.2,
            diags := st.diags ++ (filterBlocks diffPaths fs st.ret blocks).2.1 } := by
        simp only [bfsStep, hread, hparse]
      rw [heq]
      constructor
      · intro pfn hp b hb e he
        rcases mem_assocInsert _ _ _ _ hp with hp | hp
        · have hj := hret pfn hp b hb e he
          rcases hj with h | h | ⟨d, hd⟩ | h
          · exact Or.inl (lookupAssoc_isSome_assocInsert _ _ _ _ h)
          · exact Or.inr (Or.inl h)
          · rw [hsearch] at hd
            rcases List.mem_cons.mp hd with hd | hd
            · have ht : e.2.path = path := congrArg Prod.snd hd
              refine Or.inl ?_
              show (lookupAssoc (assocInsert st.ret path _) e.2.path).isSome = true
              rw [ht, lookupAssoc_assocInsert]
              simp
            · exact Or.inr (Or.inr (Or.inl ⟨d, List.mem_append.mpr (Or.inl hd)⟩))
          · exact Or.inr (Or.inr (Or.inr h))
        · have hpfn2 : pfn.2 = FileNode.mk (filterBlocks diffPaths fs st.ret blocks).1 :=
            congrArg Prod.snd hp
          rw [hpfn2] at hb
          have hb2 : b ∈ (filterBlocks diffPaths fs st.ret blocks).1 := hb
          obtain ⟨hkeep, hsub⟩ := filterBlocks_spec diffPaths fs st.ret blocks b hb2 e he
          rcases processEntry_keep diffPaths fs st.ret b.key.path e hkeep with h | h | ⟨d, hd⟩
          · exact Or.inr (Or.inl h)
          · exact Or.inl (lookupAssoc_isSome_assocInsert _ _ _ _ h)
          · refine Or.inr (Or.inr (Or.inl ⟨d, ?_⟩))
            show (d, e.2.path) ∈ rest ++ (filterBlocks diffPaths fs st.ret blocks).2.2
            exact List.mem_append.mpr (Or.inr (hsub _ hd))
      · intro ds hds
        have hds2 : ds ∈ rest ++ (filterBlocks diffPaths fs st.ret blocks).2.2 := hds
        rcases List.mem_append.mp hds2 with hds3 | hds3
        · exact hq ds (by rw [hsearch]; exact List.mem_cons_of_mem _ hds3)
        · exact Or.inr (filterBlocks_push_readable diffPaths fs st.ret blocks ds.1 ds.2 hds3)

theorem bfsRun_inv (diffPaths : List String) (fs : Fs) :
    ∀ (fuel : Nat) (st : BfsState), retClosed diffPaths fs st → queueReadable diffPaths fs st →
      retClosed diffPaths fs (bfsRun diffPaths fs fuel st) ∧
      queueReadable diffPaths fs (bfsRun diffPaths fs fuel st) := by
  intro fuel
  induction fuel with
  | zero => intro st h1 h2; exact ⟨h1, h2⟩
  | succ n ih =>
    intro st h1 h2
    rw [bfsRun]
    cases hs : st.search with
    | nil => exact ⟨h1, h2⟩
    | cons hd rest =>
      obtain ⟨dfail, path⟩ := hd
      have hstep := bfsStep_inv diffPaths fs dfail path rest st hs h1 h2
      exact ih _ hstep.1 hstep.2

theorem getCorrespondingBlock_isSome_iff (fn : FileNode) (B : BlockNode) :
    (getCorrespondingBlock fn B).isSome = true ↔
      ∃ dst ∈ fn.blocks, ∃ e ∈ dst.then_change, e.2 = B.key := by
  unfold getCorrespondingBlock
  rw [List.find?_isSome]
  constructor
  · rintro ⟨dst, hdst, hpred⟩
    obtain ⟨e, he, hbeq⟩ := List.any_eq_true.mp hpred
    exact ⟨dst, hdst, e, he, by simpa using hbeq⟩
  · rintro ⟨dst, hdst, e, he, heq⟩
    exact ⟨dst, hdst, List.any_eq_true.mpr ⟨e, he, by simpa using heq⟩⟩

theorem entryDiagnostics_eq_nil_iff (mods index : List (String × FileNode))
    (diffPaths : List String) (B : BlockNode) (k : BlockKey) :
    entryDiagnostics mods index diffPaths B k = [] ↔
      ∃ fn, lookupAssoc mods k.path = some fn ∧
        ∃ dst ∈ fn.blocks, ∃ e ∈ dst.then_change, e.2 = B.key := by
  unfold entryDiagnostics
  cases hlm : lookupAssoc mods k.path with
  | none =>
    simp only []
    constructor
    · intro h
      exfalso
      cases hbr : (match lookupAssoc index k.path with
        | some fns => (getCorrespondingBlock fns B).map (·.content_range)
        | none => none : Option (Nat × Nat)) with
      | none => simp [hbr] at h
      | some r => simp [hbr] at h
    · rintro ⟨fn, hfn, _⟩
      cases hfn
  | some fn =>
    simp only []
    cases hsat : (getCorrespondingBlock fn B).isSome with
    | true =>
      simp only [if_true]
      constructor
      · intro _
        exact ⟨fn, rfl, (getCorrespondingBlock_isSome_iff fn B).mp hsat⟩
      · intro _; trivial
    | false =>
      simp only [Bool.false_eq_true, if_false]
      constructor
      · intro h
        exfalso
        cases hbr : (match lookupAssoc index k.path with
          | some fns => (getCorrespondingBlock fns B).map (·.content_range)
          | none => none : Option (Nat × Nat)) with
        | none => simp [hbr] at h
        | some r => simp [hbr] at h
      · rintro ⟨fn2, hfn2, hex⟩
        cases hfn2
        rw [← getCorrespondingBlock_isSome_iff fn B] at hex
        rw [hsat] at hex
        cases hex

/-! ## Claim theorems. -/

/-- C1 (amended): file discovery is a full transitive closure, not a one-hop
expansion. Once the worklist is exhausted, the index is closed under
then-change references at every depth: every obligation kept in any indexed
file — including files discovered one or more hops beyond the diff — names a
path that is itself indexed, or is a path of the diff, or is readable but
failed to parse (so its indexing was attempted and rejected). -/
theorem discovery_full_closure (diffPaths : List String) (fs : Fs) (fuel : Nat)
    (diags0 : List Diagnostic)
    (hdone : (discover diffPaths fs fuel diags0).search = []) :
    ∀ pfn ∈ (discover diffPaths fs fuel diags0).ret, ∀ b ∈ FileNode.blocks pfn.2,
      ∀ e ∈ b.then_change,
        (lookupAssoc (discover diffPaths fs fuel diags0).ret e.2.path).isSome = true ∨
        e.2.path ∈ diffPaths ∨
        ∃ c, fsRead fs e.2.path = some c ∧ ∃ errs, parseFile e.2.path c = Except.error errs := by
  intro pfn hp b hb e he
  have hinit1 : retClosed diffPaths fs (initialBfsState diffPaths diags0) := by
    intro x hx; cases hx
  have hinit2 : queueReadable diffPaths fs (initialBfsState diffPaths diags0) := by
    intro ds hds
    obtain ⟨p, hpmem, hpeq⟩ := List.mem_map.mp hds
    subst hpeq
    exact Or.inl hpmem
  have hinv := bfsRun_inv diffPaths fs fuel (initialBfsState diffPaths diags0) hinit1 hinit2
  have hj := hinv.1 pfn hp b hb e he
  rcases hj with h | h | ⟨d, hd⟩ | h
  · exact Or.inl h
  · exact Or.inr (Or.inl h)
  · have hd2 : (d, e.2.path) ∈ (discover diffPaths fs fuel diags0).search := hd
    rw [hdone] at hd2
    cases hd2
  · exact Or.inr (Or.inr h)

theorem discovery_full_closure_witness :
    ((discover ["a"] chainFs 10 []).search = []) ∧
    (∀ pfn ∈ (discover ["a"] chainFs 10 []).ret, ∀ b ∈ FileNode.blocks pfn.2,
      ∀ e ∈ b.then_change,
        (lookupAssoc (discover ["a"] chainFs 10 []).ret e.2.path).isSome = true ∨
        e.2.path ∈ ["a"] ∨
        ∃ c, fsRead chainFs e.2.path = some c ∧
          ∃ errs, parseFile e.2.path c = Except.error errs) :=
  ⟨by decide, discovery_full_closure ["a"] chainFs 10 [] (by decide)⟩

/-- C1 (counterexample): with the diff touching only `a`, whose single block
names exactly `b`, the one-hop set is `{a, b}` — yet the index also reads and
adds the two-hop file `c` found in `b`, refuting the claim as stated. -/
theorem discovery_not_one_hop_cex :
    (discover ["a"] chainFs 10 []).ret.map Prod.fst = ["a", "b", "c"] ∧
    parseFile "a" "# if-change\nx\n# then-change b\n" =
      Except.ok [⟨⟨"a"⟩, [(2, ⟨"b"⟩)], 0, 2, 2⟩] ∧
    ¬ "c" ∈ (["a", "b"] : List String) := by decide

/-- C2 (amended): a block is touched iff some hunk has an added or removed line
whose effective in-block flag is set — where the flag is decided by the most
recent line (up to and including the line itself) that carries a target line
number, and a removed line (which carries none) inherits the flag from that
most recent carrier; no carrier yet means out-of-block. -/
theorem blockModified_eq_sticky (hunks : List Hunk) (b : BlockNode) :
    blockModified hunks b = hunks.any fun h => stickyTouched b.content_range h.lines := by
  unfold blockModified
  congr 1
  funext h
  exact hunkScan_eq_sticky _ _

/-- C2 (counterexample): a hunk whose only in-range line is a context line,
followed by a removed line carrying no target line number, does mark the block
touched — although the content range contains no added or removed line,
contradicting the claimed "only context lines inside its range" clause. -/
theorem blockModified_spec_cex :
    blockModified [⟨[⟨some 1, DiffLineKind.context⟩, ⟨none, DiffLineKind.removed⟩]⟩]
        ⟨⟨"a"⟩, [(2, ⟨"b"⟩)], 0, 2, 2⟩ = true ∧
    specTouched [⟨[⟨some 1, DiffLineKind.context⟩, ⟨none, DiffLineKind.removed⟩]⟩]
        ⟨⟨"a"⟩, [(2, ⟨"b"⟩)], 0, 2, 2⟩ = false := by decide

/-- C3 (confirmed): a self-referential then-change entry never produces a
diagnostic. During discovery the retain-filter emits nothing for an entry whose
target equals the declaring file (it is either kept because that file is in the
diff, or silently dropped). During diagnostics generation, an obligation of a
touched block whose target is the block's own file is always satisfied: the
block itself reverse-matches, so no diagnostic is emitted. -/
theorem self_reference_no_diagnostic :
    (∀ (diffPaths : List String) (fs : Fs) (ret : List (String × FileNode))
        (blockPath : String) (e : Nat × BlockKey), e.2.path = blockPath →
        (processEntry diffPaths fs ret blockPath e).2.1 = []) ∧
    (∀ (mods index : List (String × FileNode)) (diffPaths : List String)
        (B : BlockNode) (fn : FileNode) (e : Nat × BlockKey),
        lookupAssoc mods B.key.path = some fn → B ∈ fn.blocks → e ∈ B.then_change →
        e.2.path = B.key.path →
        entryDiagnostics mods index diffPaths B e.2 = []) := by
  constructor
  · intro diffPaths fs ret blockPath e he
    rw [processEntry]
    split_ifs with h1 h2 h3 h4
    · rfl
    · rfl
    · exact absurd (by simp [he]) h2
    · exact absurd (by simp [he]) h2
    · exact absurd (by simp [he]) h2
  · intro mods index diffPaths B fn e hlm hB he hself
    rw [entryDiagnostics_eq_nil_iff]
    refine ⟨fn, ?_, B, hB, e, he, ?_⟩
    · rw [hself]; exact hlm
    · exact congrArg BlockKey.mk hself

theorem self_reference_no_diagnostic_witness :
    ((processEntry ["a"] [] [] "a" (2, ⟨"a"⟩)).2.1 = []) ∧
    (entryDiagnostics selfMods [] [] selfBlock (⟨"a"⟩ : BlockKey) = []) :=
  ⟨self_reference_no_diagnostic.1 ["a"] [] [] "a" (2, ⟨"a"⟩) rfl,
   self_reference_no_diagnostic.2 selfMods [] [] selfBlock ⟨[selfBlock]⟩ (2, ⟨"a"⟩)
     (by decide) (by decide) (by decide) rfl⟩

/-- C4 (amended): the parser never returns blocks alongside diagnostics: if any
diagnostic was recorded, the parse returns `Err` with only the diagnostics, and
every block found — well-formed or not — is discarded. -/
theorem parse_errors_discard_blocks (path content : String)
    (h : ¬ (parseAcc path content).errors = []) :
    ∀ bs, ¬ parseFile path content = Except.ok bs := by
  intro bs hok
  unfold parseFile at hok
  by_cases he : (parseAcc path content).errors.isEmpty
  · exact h (List.isEmpty_iff.mp he)
  · simp [he] at hok

theorem parse_errors_discard_blocks_witness :
    (¬ (parseAcc "f" mixedContent).errors = []) ∧
    (∀ bs, ¬ parseFile "f" mixedContent = Except.ok bs) :=
  ⟨by decide, parse_errors_discard_blocks "f" mixedContent (by decide)⟩

/-- C4 (counterexample): a file with one stray end-change and one well-formed
block parses to `Err` carrying only the stray-marker diagnostic; the
well-formed block was accumulated internally but is not returned. -/
theorem parse_partial_blocks_cex :
    parseFile "f" mixedContent =
      Except.error [⟨"f", some 0, none, "end-change must follow an if-change and then-change"⟩] ∧
    (parseAcc "f" mixedContent).blocks = [⟨⟨"f"⟩, [(3, ⟨"t.foo"⟩)], 1, 3, 3⟩] := by decide

/-- C5 (amended): when end of file is reached in the Opened state, exactly one
diagnostic is appended, positioned at the line of the unterminated if-change
marker itself (not at the final line), with message "then-change must follow an
if-change", and the incomplete builder contributes no block. -/
theorem unterminated_if_change_diag (path content : String) (i : Nat) (b : BlockNodeBuilder)
    (h : (parseLoop path 0 (rustLines content.data) ⟨[], [], PState.noOp⟩).state =
      PState.ifChange i b) :
    (parseAcc path content).errors =
      (parseLoop path 0 (rustLines content.data) ⟨[], [], PState.noOp⟩).errors ++
        [⟨path, some i, none, "then-change must follow an if-change"⟩] ∧
    (parseAcc path content).blocks =
      (parseLoop path 0 (rustLines content.data) ⟨[], [], PState.noOp⟩).blocks := by
  unfold parseAcc parseEof
  rw [h]
  exact ⟨rfl, rfl⟩

theorem unterminated_if_change_diag_witness :
    ((parseLoop "f" 0 (rustLines ("x\n# if-change\ny" : String).data)
        ⟨[], [], PState.noOp⟩).state =
      PState.ifChange 1
        { key := some ⟨"f"⟩, then_change := none, if_change_lineno := some 1,
          then_change_lineno := none, end_change_lineno := none }) ∧
    ((parseAcc "f" "x\n# if-change\ny").errors =
      (parseLoop "f" 0 (rustLines ("x\n# if-change\ny" : String).data)
        ⟨[], [], PState.noOp⟩).errors ++
        [⟨"f", some 1, none, "then-change must follow an if-change"⟩] ∧
     (parseAcc "f" "x\n# if-change\ny").blocks =
      (parseLoop "f" 0 (rustLines ("x\n# if-change\ny" : String).data)
        ⟨[], [], PState.noOp⟩).blocks) :=
  ⟨by decide, unterminated_if_change_diag "f" "x\n# if-change\ny" 1
    { key := some ⟨"f"⟩, then_change := none, if_change_lineno := some 1,
      then_change_lineno := none, end_change_lineno := none } (by decide)⟩

/-- C5 (counterexample): a three-line file with an unterminated if-change on
its second line yields a diagnostic at 0-indexed line 1 — the if-change line,
not the final line 2 — and its message is "then-change must follow an
if-change", not "if-change must be closed by a then-change". -/
theorem unterminated_if_change_cex :
    parseFile "f" "x\n# if-change\ny" =
      Except.error [⟨"f", some 1, none, "then-change must follow an if-change"⟩] ∧
    (rustLines ("x\n# if-change\ny" : String).data).length = 3 ∧
    ¬ (1 : Nat) = 2 ∧
    ¬ "then-change must follow an if-change" = "if-change must be closed by a then-change" := by
  decide

/-- C6 (code bug): a whitespace-only line inside a block-form then-change list
is trimmed to the empty string, added to the block's `then_change` as an entry
with an empty path, and no "then-change does not reference a valid path"
diagnostic is produced — the parse succeeds with zero diagnostics, contradicting
the repository's own integration test for invalid target paths. -/
theorem empty_target_line_kept :
    parseFile "f" "# if-change\nx\n# then-change\n   \n# end-change\n" =
      Except.ok [⟨⟨"f"⟩, [(3, ⟨""⟩)], 0, 2, 4⟩] := by decide

/-- C7 (confirmed): every block returned by a successful parse satisfies
`if_change_lineno ≤ then_change_lineno ≤ end_change_lineno`, and its content
range is nonempty. -/
theorem parsed_block_line_invariant (path content : String) (bs : List BlockNode)
    (h : parseFile path content = Except.ok bs) :
    ∀ b ∈ bs, b.if_change_lineno ≤ b.then_change_lineno ∧
      b.then_change_lineno ≤ b.end_change_lineno ∧
      b.content_range.1 < b.content_range.2 := by
  intro b hb
  obtain ⟨h1, h2⟩ := parseFile_blocks_ordered path content bs h b hb
  refine ⟨le_of_lt h1, h2, ?_⟩
  unfold BlockNode.content_range
  dsimp
  omega

theorem parsed_block_line_invariant_witness :
    (parseFile "f" "# if-change\nx\n# then-change t.foo\n" =
      Except.ok [⟨⟨"f"⟩, [(2, ⟨"t.foo"⟩)], 0, 2, 2⟩]) ∧
    (∀ b ∈ [(⟨⟨"f"⟩, [(2, ⟨"t.foo"⟩)], 0, 2, 2⟩ : BlockNode)],
      b.if_change_lineno ≤ b.then_change_lineno ∧
      b.then_change_lineno ≤ b.end_change_lineno ∧
      b.content_range.1 < b.content_range.2) :=
  ⟨by decide, parsed_block_line_invariant "f" "# if-change\nx\n# then-change t.foo\n" _ (by decide)⟩

/-- C8 (amended): a position with no start line displays as the bare path; a
start line with no end line displays as `path:N` (1-indexed); a position with
both bounds always displays as `path:(start+1)-(end)` — even when the stored
range covers exactly one line, which then renders as `path:N-N`. The program
itself never builds a both-present range covering one line: every parsed
block's content range spans at least two lines. -/
theorem position_display_cases :
    (∀ (path : String) (e : Option Nat), positionFmt path none e = path) ∧
    (∀ (path : String) (s : Nat), positionFmt path (some s) none =
      path ++ ":" ++ toString (s + 1)) ∧
    (∀ (path : String) (s e : Nat), positionFmt path (some s) (some e) =
      path ++ ":" ++ toString (s + 1) ++ "-" ++ toString e) ∧
    (∀ (path content : String) (bs : List BlockNode), parseFile path content = Except.ok bs →
      ∀ b ∈ bs, b.content_range.1 + 2 ≤ b.content_range.2) := by
  refine ⟨fun path e => rfl, fun path s => rfl, fun path s e => rfl, ?_⟩
  intro path content bs h b hb
  obtain ⟨h1, h2⟩ := parseFile_blocks_ordered path content bs h b hb
  unfold BlockNode.content_range
  dsimp
  omega

theorem position_display_cases_witness :
    (positionFmt "a.sh" none none = "a.sh") ∧
    (parseFile "f" "# if-change\nx\n# then-change t.foo\n" =
      Except.ok [⟨⟨"f"⟩, [(2, ⟨"t.foo"⟩)], 0, 2, 2⟩]) ∧
    (∀ b ∈ [(⟨⟨"f"⟩, [(2, ⟨"t.foo"⟩)], 0, 2, 2⟩ : BlockNode)],
      b.content_range.1 + 2 ≤ b.content_range.2) :=
  ⟨position_display_cases.1 "a.sh" none, by decide,
   position_display_cases.2.2.2 "f" "# if-change\nx\n# then-change t.foo\n" _ (by decide)⟩

/-- C8 (counterexample): the stored 0-indexed inclusive-exclusive range
`(3, 4)` covers exactly one line, yet it displays as `a.sh:4-4`, not as the
claimed `a.sh:4`. -/
theorem single_line_display_cex :
    positionFmt "a.sh" (some 3) (some 4) = "a.sh:4-4" ∧
    ¬ positionFmt "a.sh" (some 3) (some 4) = "a.sh:4" := by decide

/-- C9 (amended): the final diagnostics are sorted by the derived total order
before emission, and sorting only reorders them — the emitted list is a
permutation of the diagnostics the discovery and engine phases produced. The
pipeline as a whole, however, is not deterministic across runs: the worklist is
seeded from the diff map's unspecified key iteration order, and a different
order can enqueue and process a file twice, changing the produced multiset
itself (see the counterexample). -/
theorem pipeline_sorted_output (isGitDiff : Bool) (files : List PatchedFile)
    (fs : Fs) (fuel : Nat) (diffs : List (String × PatchedFile))
    (keyOrder : List String) (diags0 : List Diagnostic) (l : List Diagnostic) :
    List.Sorted diagLe (runTool isGitDiff files fs fuel) ∧
    List.Sorted diagLe (runFromKeys diffs keyOrder fs fuel diags0) ∧
    (sortDiags l).Perm l := by
  refine ⟨?_, ?_, List.perm_insertionSort diagLe l⟩
  · show List.Sorted diagLe (sortDiags _)
    exact List.sorted_insertionSort diagLe _
  · show List.Sorted diagLe (sortDiags _)
    exact List.sorted_insertionSort diagLe _

set_option maxRecDepth 4000 in
/-- C9 (counterexample): the same (diff, filesystem) pair run under the two
possible key iteration orders of the two-path diff map — both worklists drain —
emits one "then-change references file that does not exist" diagnostic in one
order and two copies of it in the other: under `["b", "a"]` the file `q` is not
yet indexed when `r` is processed, so `q` is enqueued a second time and its
referential diagnostic is duplicated. Two runs of the program on the same input
can therefore produce different outputs, refuting the determinism claim. -/
theorem pipeline_order_dependent_cex :
    List.Perm ["a", "b"] ["b", "a"] ∧
    probeDiffs.map Prod.fst = ["a", "b"] ∧
    (discover ["a", "b"] probeFs 10 []).search = [] ∧
    (discover ["b", "a"] probeFs 10 []).search = [] ∧
    runFromKeys probeDiffs ["a", "b"] probeFs 10 [] =
      [⟨"q", some 2, none, "then-change references file that does not exist: \'n\'"⟩] ∧
    runFromKeys probeDiffs ["b", "a"] probeFs 10 [] =
      [⟨"q", some 2, none, "then-change references file that does not exist: \'n\'"⟩,
       ⟨"q", some 2, none, "then-change references file that does not exist: \'n\'"⟩] ∧
    ¬ runFromKeys probeDiffs ["a", "b"] probeFs 10 [] =
        runFromKeys probeDiffs ["b", "a"] probeFs 10 [] := by decide

/-- C10 (confirmed): reverse-matching is by file path alone. The lookup depends
only on the source block's key (its file path), returns the first block of the
target file whose then-change list names that path, and an obligation from a
touched block `B` to target path `k` is satisfied — produces no diagnostic —
exactly when the touched blocks of `k`'s file contain some block naming `B`'s
file among its targets. -/
theorem reverse_match_by_path_only :
    (∀ (fn : FileNode) (s₁ s₂ : BlockNode), s₁.key = s₂.key →
      getCorrespondingBlock fn s₁ = getCorrespondingBlock fn s₂) ∧
    (∀ (fn : FileNode) (B : BlockNode), getCorrespondingBlock fn B =
      fn.blocks.find? fun dst => dst.then_change.any fun e => e.2 == B.key) ∧
    (∀ (mods index : List (String × FileNode)) (diffPaths : List String)
        (B : BlockNode) (k : BlockKey),
      entryDiagnostics mods index diffPaths B k = [] ↔
        ∃ fn, lookupAssoc mods k.path = some fn ∧
          ∃ dst ∈ fn.blocks, ∃ e ∈ dst.then_change, e.2 = B.key) := by
  refine ⟨?_, fun fn B => rfl, entryDiagnostics_eq_nil_iff⟩
  intro fn s₁ s₂ h
  unfold getCorrespondingBlock
  rw [h]

theorem reverse_match_by_path_only_witness :
    (twinBlockA.key = twinBlockB.key) ∧
    (getCorrespondingBlock targetFn twinBlockA = getCorrespondingBlock targetFn twinBlockB) :=
  ⟨by decide, reverse_match_by_path_only.1 targetFn twinBlockA twinBlockB (by decide)⟩
